import Mathlib

/-!
Shallow embedding of the crispomics k-mer generation engine (the
GenerateKmers script in `utils`): chromosome sequences are lists of
characters, Python string slicing and `str.find` are modelled explicitly,
and the per-chromosome pipeline `find_kmers → include_kmer →
output_bed_line → region join` is translated function by function from the
source. File reading, argparse and multiprocessing plumbing stay outside
the embedding; futures are collected in dispatch order and a raised
exception (modelled with `Except`) aborts the run.
-/

namespace Crispomics

/-- Python `str.upper` on one character (ASCII letters only, which covers
every character the script feeds it). -/
def pyUpperChar (c : Char) : Char :=
  if 'a' ≤ c ∧ c ≤ 'z' then Char.ofNat (c.toNat - 32) else c

/-- Python `str.upper` on a whole sequence. -/
def pyUpper (s : List Char) : List Char := s.map pyUpperChar

/-- Python slice `s[a:b]` (step 1), including negative-index wrapping and
clamping. -/
def pySlice (s : List Char) (a b : Int) : List Char :=
  let n : Int := s.length
  let a' : Int := if a < 0 then max (n + a) 0 else min a n
  let b' : Int := if b < 0 then max (n + b) 0 else min b n
  (s.drop a'.toNat).take (b' - a').toNat

/-- `pat` occurs as a substring of `s` starting at index `i`. -/
def occursAt (s pat : List Char) (i : Nat) : Bool :=
  (s.drop i).take pat.length == pat

/-- Linear scan behind `findFrom`, with explicit fuel: try indices
`i, i+1, …` until one past the end of `s`. -/
def findFromLoop (s pat : List Char) : Nat → Nat → Option Nat
  | 0, _ => none
  | fuel + 1, i =>
    if s.length < i then none
    else if occursAt s pat i then some i
    else findFromLoop s pat fuel (i + 1)

/-- Python `s.find(pat, start)`: the least index `i ≥ start` at which `pat`
occurs, as `some i`; `none` where Python returns −1. `s.length + 2`
iterations always reach one past the end. -/
def findFrom (s pat : List Char) (start : Nat) : Option Nat :=
  findFromLoop s pat (s.length + 2) start

/-- Python `pat in s` for strings: substring containment. -/
def pyContains (pat s : List Char) : Bool :=
  (findFrom s pat 0).isSome

/-- `NUC_MAP` of the source; `none` models the `KeyError` Python raises on
a character outside A/C/G/T. -/
def NUC_MAP : Char → Option Char
  | 'A' => some 'T'
  | 'T' => some 'A'
  | 'C' => some 'G'
  | 'G' => some 'C'
  | _ => none

/-- Python's `list(map(f, xs))` for a lookup that can raise: `none` as
soon as any element is unmapped. -/
def optionMap {α β : Type} (f : α → Option β) : List α → Option (List β)
  | [] => some []
  | x :: xs =>
    match f x, optionMap f xs with
    | some y, some ys => some (y :: ys)
    | _, _ => none

/-- `revcom`: map each base through `NUC_MAP`, then reverse. -/
def revcom (dna : List Char) : Option (List Char) :=
  (optionMap NUC_MAP dna).map List.reverse

/-- `AMBIGUITY_CODES` of the source. -/
def AMBIGUITY_CODES : Char → Option (List Char)
  | 'R' => some ['A', 'G']
  | 'Y' => some ['C', 'T']
  | 'K' => some ['G', 'T']
  | 'M' => some ['A', 'C']
  | 'S' => some ['G', 'C']
  | 'W' => some ['A', 'T']
  | 'B' => some ['C', 'G', 'T']
  | 'D' => some ['A', 'G', 'T']
  | 'H' => some ['A', 'C', 'T']
  | 'V' => some ['A', 'C', 'G']
  | 'N' => some ['A', 'C', 'G', 'T']
  | _ => none

/-- One position's possible nucleotides: the ambiguity class when listed,
else the character itself. -/
def possible_nucleotides (c : Char) : List Char :=
  match AMBIGUITY_CODES c with
  | some l => l
  | none => [c]

/-- `itertools.product` over character choices, leftmost position varying
slowest, as Python iterates it. -/
def cartProd : List (List Char) → List (List Char)
  | [] => [[]]
  | l :: ls => l.flatMap (fun c => (cartProd ls).map (fun s => c :: s))

/-- `map_ambiguous_sequence`: upper-case, expand each position, take the
cartesian product. -/
def map_ambiguous_sequence (sequence : List Char) : List (List Char) :=
  cartProd ((pyUpper sequence).map possible_nucleotides)

/-- `NUCS` of the source. -/
def NUCS : List Char := ['A', 'C', 'T', 'G']

/-- The argparse namespace fields the engine reads. `idPrefix` renders the
source's `prefix` option (a Lean keyword). -/
structure Args where
  pam : List Char
  context_window : Nat × Nat
  gc_range : Int × Int
  active_site_offset_5 : Int
  active_site_offset_3 : Int
  kmer_length : Nat
  min_chr_length : Nat
  idPrefix : String
  discard_poly_T : Bool
  restriction_patterns : List (List Char)
  flank_5 : List Char
  flank_3 : List Char
deriving DecidableEq, Repr

/-- One `(kmer, 1-based position, context)` triple yielded by `find_kmers`. -/
structure ScanHit where
  kmer : List Char
  pos : Int
  context : List Char
deriving DecidableEq, Repr

/-- The `while True` loop of `find_kmers`, with explicit fuel: each
iteration advances the search index past the found occurrence, so
`chrm.length + 2` iterations always suffice (supplied by `find_kmers`). -/
def findKmersLoop (args : Args) (pam chrm : List Char) (endIdx : Int)
    (forward : Bool) : Nat → Nat → List ScanHit
  | 0, _ => []
  | fuel + 1, index =>
    match findFrom chrm pam index with
    | none => []
    | some i =>
      if (i : Int) > endIdx then []
      else
        let k := args.kmer_length
        let upstr := args.context_window.1
        let downstr := args.context_window.2
        let kmer := if forward then pySlice chrm ((i : Int) - k) i
          else pySlice chrm ((i : Int) + pam.length) ((i : Int) + k + pam.length)
        let context := if forward then
            pySlice chrm ((i : Int) - k - upstr) ((i : Int) + downstr)
          else
            pySlice chrm ((i : Int) - ((downstr : Int) - pam.length))
              ((i : Int) + k + pam.length + upstr)
        let position : Int := if forward then (i : Int) - k else (i : Int)
        let rest := findKmersLoop args pam chrm endIdx forward fuel (i + 1)
        if position < 0 then rest
        else ⟨pyUpper kmer, position + 1, pyUpper context⟩ :: rest

/-- `find_kmers` of the source: all `(kmer.upper(), position+1,
context.upper())` triples for PAM occurrences found at or after `start`,
stopping at the first occurrence whose index exceeds `endIdx`; triples
whose 0-based position is negative are skipped. -/
def find_kmers (args : Args) (pam chrm : List Char) (start : Nat) (endIdx : Int)
    (forward : Bool) : List ScanHit :=
  findKmersLoop args pam chrm endIdx forward (chrm.length + 2) start

/-- `calculate_gc_content`: `(gc_count / total_count) * 100` as the exact
rational Python's float arithmetic approximates, written with `mkRat` so
kernel reduction can evaluate it; `calculate_gc_content_eq` below proves
it equal to the division-then-scale form of the source. (Python raises
ZeroDivisionError on an empty sequence; both renderings give 0 there.) -/
def calculate_gc_content (sequence : List Char) : ℚ :=
  let gc_count : Int := (sequence.count 'G' : Int) + (sequence.count 'C' : Int)
  mkRat (gc_count * 100) sequence.length

/-- The `for pattern in patterns` loop of `remove_restricted`; `none`
models the `KeyError` from `revcom` on a non-A/C/G/T context (Python only
computes `revcom(context)` when `pattern in context` is false). -/
def removeRestrictedLoop (context : List Char) : List (List Char) → Option Bool
  | [] => some false
  | pattern :: rest =>
    if pyContains pattern context then some true
    else
      match revcom context with
      | none => none
      | some rc =>
        if pyContains pattern rc then some true
        else removeRestrictedLoop context rest

/-- `remove_restricted` of the source. -/
def remove_restricted (kmer : List Char) (patterns : List (List Char))
    (flank_5 flank_3 : List Char) : Option Bool :=
  removeRestrictedLoop (flank_5 ++ kmer ++ flank_3) patterns

/-- `include_kmer` of the source: GC range, then poly-T, then restriction
patterns, short-circuiting in that order; `none` models a `KeyError`
escaping `remove_restricted`. -/
def include_kmer (args : Args) (sequence : List Char) : Option Bool :=
  let gc := calculate_gc_content sequence
  if gc < (args.gc_range.1 : ℚ) ∨ gc > (args.gc_range.2 : ℚ) then some false
  else if args.discard_poly_T && pyContains ['T', 'T', 'T', 'T'] sequence then some false
  else if 0 < args.restriction_patterns.length then
    match remove_restricted sequence args.restriction_patterns args.flank_5 args.flank_3 with
    | none => none
    | some true => some false
    | some false => some true
  else some true

/-- The k-mer dictionary `process_pam` builds for `output_bed_line`. -/
structure KmerRec where
  sequence : List Char
  position : Int
  pam : List Char
  sense : String
  length : Nat
  context : List Char
deriving DecidableEq, Repr

/-- One emitted BED line, kept structured: chromosome, the two cleavage
positions, the identifier, the comma-joined guidescan fields, context and
strand. -/
structure BedLine where
  chrom : String
  cleaveStart : Int
  cleaveStop : Int
  identifier : String
  sequence : List Char
  pam : List Char
  position : Int
  sense : String
  context : List Char
deriving DecidableEq, Repr

/-- `output_bed_line` of the source: the identifier and the strand-aware
cleavage-site positions. -/
def output_bed_line (args : Args) (chrm_name : String) (kmer : KmerRec) : BedLine :=
  let identifier :=
    args.idPrefix ++ chrm_name ++ ":" ++ toString kmer.position ++ ":" ++ kmer.sense
  let cleavePos1 : Int :=
    if kmer.sense = "+" then
      kmer.position + kmer.length + args.active_site_offset_5 - 1
    else
      kmer.position - args.active_site_offset_3 + args.pam.length - 1
  let cleavePos2 : Int :=
    if kmer.sense = "+" then
      kmer.position + kmer.length + args.active_site_offset_3 - 1
    else
      kmer.position - args.active_site_offset_5 + args.pam.length - 1
  { chrom := chrm_name, cleaveStart := cleavePos1, cleaveStop := cleavePos2,
    identifier := identifier, sequence := kmer.sequence, pam := kmer.pam,
    position := kmer.position, sense := kmer.sense, context := kmer.context }

/-- The forward branch of `process_pam`'s loop over `find_kmers` hits:
length checks, the A/C/T/G check on the context, `include_kmer`, then
`output_bed_line` with sense "+". -/
def processHitsFwd (args : Args) (context_length : Nat) (chrm_name : String) :
    List ScanHit → Except String (List BedLine)
  | [] => .ok []
  | h :: hs =>
    if h.kmer.length ≠ args.kmer_length ∨ h.context.length ≠ context_length then
      processHitsFwd args context_length chrm_name hs
    else if ¬ (h.context.all (fun nuc => NUCS.contains nuc)) = true then
      processHitsFwd args context_length chrm_name hs
    else
      match include_kmer args h.kmer with
      | none => .error "KeyError"
      | some false => processHitsFwd args context_length chrm_name hs
      | some true =>
        (processHitsFwd args context_length chrm_name hs).map
          (fun rest => output_bed_line args chrm_name
            { sequence := h.kmer, position := h.pos, pam := args.pam, sense := "+",
              length := args.kmer_length, context := h.context } :: rest)

/-- The reverse branch of `process_pam`'s loop: the same checks on the raw
hit, then `revcom` of kmer and context, `include_kmer` on the
reverse-complemented kmer, and `output_bed_line` with sense "-". -/
def processHitsRev (args : Args) (context_length : Nat) (chrm_name : String) :
    List ScanHit → Except String (List BedLine)
  | [] => .ok []
  | h :: hs =>
    if h.kmer.length ≠ args.kmer_length ∨ h.context.length ≠ context_length then
      processHitsRev args context_length chrm_name hs
    else if ¬ (h.context.all (fun nuc => NUCS.contains nuc)) = true then
      processHitsRev args context_length chrm_name hs
    else
      match revcom h.kmer with
      | none => .error "KeyError"
      | some kmerRC =>
        match revcom h.context with
        | none => .error "KeyError"
        | some contextRC =>
          match include_kmer args kmerRC with
          | none => .error "KeyError"
          | some false => processHitsRev args context_length chrm_name hs
          | some true =>
            (processHitsRev args context_length chrm_name hs).map
              (fun rest => output_bed_line args chrm_name
                { sequence := kmerRC, position := h.pos, pam := args.pam, sense := "-",
                  length := args.kmer_length, context := contextRC } :: rest)

/-- `process_pam` of the source: dispatch on membership of the concrete
PAM in `pam_set` first, else `rev_pam_set`, else raise. -/
def process_pam (args : Args) (pam : List Char) (record_seq : List Char)
    (record_id : String) (start : Nat) (endIdx : Int)
    (pam_set rev_pam_set : List (List Char)) : Except String (List BedLine) :=
  let context_length := args.kmer_length + args.context_window.1 + args.context_window.2
  let chrm_seq := pyUpper record_seq
  if pam ∈ pam_set then
    processHitsFwd args context_length record_id
      (find_kmers args pam chrm_seq start endIdx true)
  else if pam ∈ rev_pam_set then
    processHitsRev args context_length record_id
      (find_kmers args pam chrm_seq start endIdx false)
  else
    .error "ValueError: PAM not found in the list of valid PAMs"

/-- One BED interval (chromosome, 0-based half-open start/stop), the unit
of the keep/discard region sets. -/
structure Ival where
  chrom : String
  start : Int
  stop : Int
deriving DecidableEq, Repr

/-- Two BED features overlap: same chromosome and at least one shared
base (half-open intervals). -/
def ivOverlap (a b : Ival) : Bool :=
  a.chrom == b.chrom && decide (max a.start b.start < min a.stop b.stop)

/-- `a` with the portion covered by `b` removed: `a` untouched when they
do not overlap, else the up-to-two remaining pieces. -/
def pieceMinus (a b : Ival) : List Ival :=
  if a.chrom ≠ b.chrom ∨ b.stop ≤ a.start ∨ a.stop ≤ b.start then [a]
  else
    (if a.start < b.start then [{ a with stop := b.start }] else []) ++
    (if b.stop < a.stop then [{ a with start := b.stop }] else [])

/-- One interval minus every interval of `bs`. -/
def subtractPieces (a : Ival) (bs : List Ival) : List Ival :=
  bs.foldl (fun pieces b => pieces.flatMap (fun p => pieceMinus p b)) [a]

/-- `BedTool.subtract` (no -A flag): per feature of `xs`, remove the
portions overlapped by features of `ys`. -/
def bedSubtract (xs ys : List Ival) : List Ival :=
  xs.flatMap (fun a => subtractPieces a ys)

/-- `BedTool.intersect` default mode: for each feature of `xs`, the
overlapping sub-interval with each feature of `ys`. -/
def bedIntersect (xs ys : List Ival) : List Ival :=
  xs.flatMap (fun a => ys.filterMap (fun b =>
    if a.chrom = b.chrom ∧ max a.start b.start < min a.stop b.stop then
      some { chrom := a.chrom, start := max a.start b.start, stop := min a.stop b.stop }
    else none))

/-- `merge_targets` over already-parsed interval files (file reading and
GTF feature filtering are I/O outside the embedding). With two or more
files and operation "merge" the source calls `BedTool.merge` with a
positional BedTool argument, which pybedtools rejects with a TypeError;
no claim exercises that path. -/
def merge_targets (files : List (List Ival)) (operation : String) :
    Except String (Option (List Ival)) :=
  match files with
  | [] => .ok none
  | f0 :: rest =>
    if operation = "intersect" then .ok (some (rest.foldl bedIntersect f0))
    else if operation = "merge" then
      match rest with
      | [] => .ok (some f0)
      | _ => .error "TypeError: merge takes keyword arguments only"
    else .error "ValueError: Pass either merge or intersect to operation="

/-- Lexicographic (byte) order on character lists, as `sort` orders
chromosome names. -/
def listCharLt : List Char → List Char → Bool
  | [], [] => false
  | [], _ :: _ => true
  | _ :: _, [] => false
  | c :: cs, d :: ds =>
    if c.toNat < d.toNat then true
    else if d.toNat < c.toNat then false
    else listCharLt cs ds

/-- Interval order used by `BedTool.sort`: chromosome name, then start,
then stop. -/
def ivLE (a b : Ival) : Bool :=
  listCharLt a.chrom.toList b.chrom.toList ||
    (a.chrom == b.chrom &&
      (decide (a.start < b.start) || (a.start == b.start && decide (a.stop ≤ b.stop))))

/-- Stable insertion into a sorted interval list. -/
def ivInsert (x : Ival) : List Ival → List Ival
  | [] => [x]
  | y :: ys => if ivLE x y then x :: y :: ys else y :: ivInsert x ys

/-- `BedTool.sort`. -/
def bedSortList (l : List Ival) : List Ival := l.foldr ivInsert []

/-- The accumulation loop of `get_chromosome_boundaries` over the sorted
intervals: per chromosome, the first (smallest) start and the running
maximum end, chromosomes emitted in first-seen order. -/
def boundariesLoop : List Ival → String → Int → Int → List (String × Int × Int)
  | [], c, s, e => [(c, s, e)]
  | iv :: rest, c, s, e =>
    if iv.chrom = c then boundariesLoop rest c s (max e iv.stop)
    else (c, s, e) :: boundariesLoop rest iv.chrom iv.start iv.stop

/-- `get_chromosome_boundaries`; the argument is optional because `main`
passes `targets_to_keep`, which is `None` when no keep file was supplied —
Python then fails with an AttributeError on `None.sort()`. (For an empty
BedTool Python would build a `{None: (None, None)}` dictionary and crash
later when printing the chromosome list; no claim reaches that case and it
is rendered as the empty list.) -/
def get_chromosome_boundaries (bed_obj : Option (List Ival)) :
    Except String (List (String × Int × Int)) :=
  match bed_obj with
  | none => .error "AttributeError: NoneType object has no attribute sort"
  | some ivs =>
    match bedSortList ivs with
    | [] => .ok []
    | iv :: rest => .ok (boundariesLoop rest iv.chrom iv.start iv.stop)

/-- One FASTA record: name and sequence. -/
structure FastaRec where
  id : String
  seq : List Char
deriving DecidableEq, Repr

/-- Dictionary lookup in the chromosome-boundaries association list. -/
def lookupBounds (keep_chroms : List (String × Int × Int)) (c : String) :
    Option (Int × Int) :=
  match keep_chroms.find? (fun t => t.1 == c) with
  | some t => some t.2
  | none => none

/-- Python truthiness of `targets_to_keep` / `targets_to_discard`: `None`
and an empty BedTool are falsy. -/
def pyTruthy (t : Option (List Ival)) : Bool :=
  match t with
  | none => false
  | some l => !l.isEmpty

/-- The `if targets_to_keep and targets_to_discard` step of `main`:
replace the keep set by keep − discard and drop the discard set. -/
def combineTargets (tk td : Option (List Ival)) :
    Option (List Ival) × Option (List Ival) :=
  if pyTruthy tk ∧ pyTruthy td then
    (some (bedSubtract (tk.getD []) (td.getD [])), none)
  else (tk, td)

/-- Outcomes of a run (or of one task) can be compared for equality. -/
instance {ε α : Type} [DecidableEq ε] [DecidableEq α] : DecidableEq (Except ε α)
  | .error e, .error f =>
    if h : e = f then isTrue (by rw [h]) else isFalse (by simp [h])
  | .error _, .ok _ => isFalse (by simp)
  | .ok _, .error _ => isFalse (by simp)
  | .ok a, .ok b =>
    if h : a = b then isTrue (by rw [h]) else isFalse (by simp [h])

/-- Collect the result lists of a sequence of tasks in order, aborting at
the first raised exception (how `main` extends `chr_results` from each
`future.result()`). -/
def collectE {α β : Type} (f : α → Except String (List β)) :
    List α → Except String (List β)
  | [] => .ok []
  | x :: xs =>
    match f x with
    | .error e => .error e
    | .ok l =>
      match collectE f xs with
      | .error e => .error e
      | .ok rest => .ok (l ++ rest)

/-- The per-chromosome `for pam in (pam_set + rev_pam_set)` dispatch of
`main`; futures are collected in submission order and a task exception
propagates out of `future.result()`. -/
def dispatchPams (args : Args) (record : FastaRec) (start : Nat) (endIdx : Int)
    (pam_set rev_pam_set : List (List Char)) : Except String (List BedLine) :=
  collectE (fun pam =>
      process_pam args pam record.seq record.id start endIdx pam_set rev_pam_set)
    (pam_set ++ rev_pam_set)

/-- The region join `main` applies to one chromosome's collected results:
`intersect u=True` against a truthy keep set, else `subtract A=True`
against a truthy discard set, else pass-through. -/
def finalTargets (tk td : Option (List Ival)) (chrm_name : String)
    (results : List BedLine) : List BedLine :=
  if pyTruthy tk then
    results.filter (fun r => (tk.getD []).any (fun iv =>
      ivOverlap { chrom := chrm_name, start := r.cleaveStart, stop := r.cleaveStop } iv))
  else if pyTruthy td then
    results.filter (fun r => !(td.getD []).any (fun iv =>
      ivOverlap { chrom := chrm_name, start := r.cleaveStart, stop := r.cleaveStop } iv))
  else results

/-- `start -= 20; start = max(start, 0)` of `main`: the scan window's
start, a constant pad of 20 below the chromosome's smallest keep start. -/
def scanStart (s0 : Int) : Nat := (max (s0 - 20) 0).toNat

/-- `end += 20; end = min(end, len(record.seq))` of `main`: the scan
window's end, a constant pad of 20 above the largest keep end. -/
def scanEnd (e0 : Int) (len : Nat) : Int := min (e0 + 20) (len : Int)

/-- The body of `main`'s loop over FASTA records: skip chromosomes absent
from a truthy boundaries dictionary, skip records shorter than
`min_chr_length`, widen the chromosome's keep boundaries by the constant
pad of 20 (clamped to the sequence), dispatch every concrete PAM, then
apply the region join. -/
def processRecord (args : Args) (pam_set rev_pam_set : List (List Char))
    (tk td : Option (List Ival)) (keep_chroms : List (String × Int × Int))
    (record : FastaRec) : Except String (List BedLine) :=
  if keep_chroms ≠ [] ∧ lookupBounds keep_chroms record.id = none then .ok []
  else if record.seq.length < args.min_chr_length then .ok []
  else
    match lookupBounds keep_chroms record.id with
    | none => .error "KeyError"
    | some (s0, e0) =>
      (dispatchPams args record (scanStart s0) (scanEnd e0 record.seq.length)
          pam_set rev_pam_set).map
        (finalTargets tk td record.id)

/-- `__main__` of the generation script, from configuration validation to
the final filtered record stream: offset and GC-range checks, target
merging, keep − discard combination, chromosome boundaries, PAM expansion,
then the per-record loop. -/
def mainRun (args : Args) (keepFiles discardFiles : List (List Ival))
    (join_operation : String) (fasta : List FastaRec) :
    Except String (List BedLine) :=
  if args.active_site_offset_5 ≥ args.active_site_offset_3 then
    .error "--active_site_offset_5 should be less than --active_site_offset_3"
  else if args.gc_range.1 ≥ args.gc_range.2 then
    .error "first --gc_range argument should be greater than second"
  else
    match merge_targets keepFiles join_operation with
    | .error e => .error e
    | .ok targets_to_keep0 =>
      match merge_targets discardFiles "merge" with
      | .error e => .error e
      | .ok targets_to_discard0 =>
        let combined := combineTargets targets_to_keep0 targets_to_discard0
        match get_chromosome_boundaries combined.1 with
        | .error e => .error e
        | .ok keep_chroms =>
          let pam_set := map_ambiguous_sequence args.pam
          match optionMap revcom pam_set with
          | none => .error "KeyError"
          | some rev_pam_set =>
            collectE
              (processRecord args pam_set rev_pam_set combined.1 combined.2 keep_chroms)
              fasta

/-! ### Concrete scenarios used by the claims -/

/-- Shorthand: the characters of a string literal. -/
def str (s : String) : List Char := s.toList

/-- SpCas9-style configuration of the spec's forward-scan example:
pam NGG, k = 20, context window 5/5. -/
def argsC1 : Args :=
  { pam := str "NGG", context_window := (5, 5), gc_range := (0, 100),
    active_site_offset_5 := -4, active_site_offset_3 := -3, kmer_length := 20,
    min_chr_length := 1, idPrefix := "", discard_poly_T := false,
    restriction_patterns := [], flank_5 := [], flank_3 := [] }

/-- 50-base sequence with exactly one NGG-matching site, "AGG" planted at
index 30. -/
def seq50 : List Char := List.replicate 30 'A' ++ str "AGG" ++ List.replicate 17 'A'

/-- 50-base sequence with its only "AGG" at index 5, closer to the start
than the k-mer length. -/
def seqNear : List Char := List.replicate 5 'A' ++ str "AGG" ++ List.replicate 42 'A'

/-- A sequence with three mutually overlapping "GG" occurrences
(indices 20, 21, 22). -/
def seqOv : List Char := List.replicate 20 'A' ++ str "GGGG"

/-- A small configuration scanning for the overlapping PAM "GG". -/
def argsOv : Args :=
  { pam := str "GG", context_window := (1, 1), gc_range := (0, 100),
    active_site_offset_5 := -4, active_site_offset_3 := -3, kmer_length := 3,
    min_chr_length := 1, idPrefix := "", discard_poly_T := false,
    restriction_patterns := [], flank_5 := [], flank_3 := [] }

/-- Configuration with the palindromic PAM "GC" (its single concrete
variant is its own reverse complement). -/
def argsGC : Args :=
  { pam := str "GC", context_window := (0, 0), gc_range := (0, 100),
    active_site_offset_5 := -4, active_site_offset_3 := -3, kmer_length := 2,
    min_chr_length := 1, idPrefix := "", discard_poly_T := false,
    restriction_patterns := [], flank_5 := [], flank_3 := [] }

/-- Chromosome for the palindromic-PAM scenario: "GC" at index 2, with
distinct forward and reverse candidates. -/
def recGC : FastaRec := { id := "chrP", seq := str "TTGCAA" }

/-- The forward-sense record the scan of `recGC` emits for "GC". -/
def rGCfwd : BedLine :=
  { chrom := "chrP", cleaveStart := -2, cleaveStop := -1, identifier := "chrP:1:+",
    sequence := str "TT", pam := str "GC", position := 1, sense := "+",
    context := str "TT" }

/-- The record the reverse-semantics branch would emit for "GC" on
`recGC`. -/
def rGCrev : BedLine :=
  { chrom := "chrP", cleaveStart := 7, cleaveStop := 8, identifier := "chrP:3:-",
    sequence := str "TT", pam := str "GC", position := 3, sense := "-",
    context := str "TT" }

/-- Configuration of the end-to-end witness run: pam "GG", k = 3, context
window 1/1, cut offsets 1/2. -/
def argsW : Args :=
  { pam := str "GG", context_window := (1, 1), gc_range := (0, 100),
    active_site_offset_5 := 1, active_site_offset_3 := 2, kmer_length := 3,
    min_chr_length := 1, idPrefix := "", discard_poly_T := false,
    restriction_patterns := [], flank_5 := [], flank_3 := [] }

/-- Chromosome of the witness run: one "GG" site (index 5) and one "CC"
site (index 7). -/
def recW : FastaRec := { id := "chrA", seq := str "AAAATGGCCTTAAA" }

/-- Keep region covering the witness chromosome. -/
def keepW : List Ival := [{ chrom := "chrA", start := 0, stop := 14 }]

/-- Configuration exercising every filter of `include_kmer`: GC range
[40,60], poly-T discarding on, one restriction pattern and both vector
flanks set. -/
def argsC6 : Args :=
  { pam := str "GG", context_window := (1, 1), gc_range := (40, 60),
    active_site_offset_5 := -4, active_site_offset_3 := -3, kmer_length := 16,
    min_chr_length := 1, idPrefix := "", discard_poly_T := true,
    restriction_patterns := [str "GAATTC"], flank_5 := str "AA",
    flank_3 := str "TT" }

/-- Keep set of the region-join example: chrA:[100,200). -/
def keepC5 : List Ival := [{ chrom := "chrA", start := 100, stop := 200 }]

/-- Discard set of the region-join example: chrA:[150,160). -/
def discC5 : List Ival := [{ chrom := "chrA", start := 150, stop := 160 }]

/-- A candidate record whose cleavage interval sits at chrA:155. -/
def rec155 : BedLine :=
  { chrom := "chrA", cleaveStart := 155, cleaveStop := 156, identifier := "x155",
    sequence := [], pam := [], position := 155, sense := "+", context := [] }

/-- A candidate record whose cleavage interval sits at chrA:120. -/
def rec120 : BedLine :=
  { chrom := "chrA", cleaveStart := 120, cleaveStop := 121, identifier := "x120",
    sequence := [], pam := [], position := 120, sense := "+", context := [] }

/-- NGG configuration with k-mer length 25 and context window 5/5
(k + flanks = 35, well over the pad of 20), default offsets −4/−3. -/
def argsC10 : Args :=
  { pam := str "NGG", context_window := (5, 5), gc_range := (0, 100),
    active_site_offset_5 := -4, active_site_offset_3 := -3, kmer_length := 25,
    min_chr_length := 1, idPrefix := "", discard_poly_T := false,
    restriction_patterns := [], flank_5 := [], flank_3 := [] }

/-- Configuration whose active-site offsets (−30/−25) reach further from
the PAM than the fixed pad of 20. -/
def argsBig : Args :=
  { pam := str "AGG", context_window := (5, 5), gc_range := (0, 100),
    active_site_offset_5 := -30, active_site_offset_3 := -25, kmer_length := 21,
    min_chr_length := 1, idPrefix := "", discard_poly_T := false,
    restriction_patterns := [], flank_5 := [], flank_3 := [] }

/-- 250-base sequence whose only "AGG" sits at index 227, just past the
padded scan window of the keep region [100,200). -/
def seq250 : List Char := List.replicate 227 'A' ++ str "AGG" ++ List.replicate 20 'A'

/-- The BED interval `main`'s region join sees for a record emitted at
1-based `position` with the given strand: the chromosome and the two
cleavage columns of `output_bed_line`. -/
def cleaveIval (args : Args) (chrm_name : String) (sense : String)
    (position : Int) : Ival :=
  let r := output_bed_line args chrm_name
    { sequence := [], position := position, pam := args.pam, sense := sense,
      length := args.kmer_length, context := [] }
  { chrom := chrm_name, start := r.cleaveStart, stop := r.cleaveStop }

/-! ### Lemmas about the search primitives -/

/-- The definition of `calculate_gc_content` agrees with the source's
`(gc_count / total_count) * 100` everywhere. -/
theorem calculate_gc_content_eq (sequence : List Char) :
    calculate_gc_content sequence =
      (((sequence.count 'G' : ℚ) + (sequence.count 'C' : ℚ)) /
        (sequence.length : ℚ)) * 100 := by
  unfold calculate_gc_content
  rw [Rat.mkRat_eq_div]
  push_cast
  ring

/-- An occurrence of a nonempty pattern fits inside the text. -/
theorem occursAt_add_le {s pat : List Char} {i : Nat}
    (h : occursAt s pat i = true) (hne : pat ≠ []) :
    i + pat.length ≤ s.length := by
  have h' : (s.drop i).take pat.length = pat := by
    simpa [occursAt] using h
  have hlen := congrArg List.length h'
  simp only [List.length_take, List.length_drop] at hlen
  have hmin : min pat.length (s.length - i) ≤ s.length - i := Nat.min_le_right _ _
  have hpos : pat.length ≠ 0 := by
    simpa [List.length_eq_zero] using hne
  omega

/-- What a successful `findFromLoop` search says: the hit is at or after
the start, inside the text, an occurrence, and the first one. -/
theorem findFromLoop_some_facts {s pat : List Char} :
    ∀ {fuel i j : Nat}, findFromLoop s pat fuel i = some j →
      i ≤ j ∧ j ≤ s.length ∧ occursAt s pat j = true ∧
        ∀ m, i ≤ m → m < j → occursAt s pat m = false := by
  intro fuel
  induction fuel with
  | zero => intro i j h; simp [findFromLoop] at h
  | succ n ih =>
    intro i j h
    rw [findFromLoop] at h
    by_cases hlt : s.length < i
    · simp [hlt] at h
    · by_cases hocc : occursAt s pat i = true
      · simp [hlt, hocc] at h
        subst h
        exact ⟨le_refl _, by omega, hocc, fun m h1 h2 => by omega⟩
      · simp [hlt, hocc] at h
        obtain ⟨h1, h2, h3, h4⟩ := ih h
        refine ⟨by omega, h2, h3, fun m hm1 hm2 => ?_⟩
        rcases Nat.eq_or_lt_of_le hm1 with rfl | hm1'
        · simpa using hocc
        · exact h4 m hm1' hm2

/-- With enough fuel, `findFromLoop` finds something at or before any
known occurrence. -/
theorem findFromLoop_of_occurs {s pat : List Char} {m : Nat}
    (hocc : occursAt s pat m = true) (hm : m ≤ s.length) :
    ∀ {fuel i : Nat}, i ≤ m → s.length + 2 - i ≤ fuel →
      ∃ j, findFromLoop s pat fuel i = some j ∧ j ≤ m := by
  intro fuel
  induction fuel with
  | zero => intro i h1 h2; omega
  | succ n ih =>
    intro i h1 h2
    rw [findFromLoop]
    by_cases hlt : s.length < i
    · omega
    · by_cases hi : occursAt s pat i = true
      · exact ⟨i, by simp [hlt, hi], h1⟩
      · have hne : i ≠ m := fun he => hi (he ▸ hocc)
        obtain ⟨j, hj, hjm⟩ := ih (show i + 1 ≤ m by omega) (by omega)
        exact ⟨j, by simp [hlt, hi, hj], hjm⟩

/-- `findFrom` facts, specialised from the loop. -/
theorem findFrom_some_facts {s pat : List Char} {start j : Nat}
    (h : findFrom s pat start = some j) :
    start ≤ j ∧ j ≤ s.length ∧ occursAt s pat j = true ∧
      ∀ m, start ≤ m → m < j → occursAt s pat m = false :=
  findFromLoop_some_facts h

/-- `findFrom` finds something at or before any known occurrence at or
after the start. -/
theorem findFrom_of_occurs {s pat : List Char} {m start : Nat}
    (hocc : occursAt s pat m = true) (hm : m ≤ s.length) (hs : start ≤ m) :
    ∃ j, findFrom s pat start = some j ∧ j ≤ m :=
  findFromLoop_of_occurs hocc hm hs (by omega)

/-- The candidate `find_kmers` yields for a forward PAM occurrence at
0-based index `i` (with `k ≤ i`). -/
def fwdHitAt (args : Args) (chrm : List Char) (i : Nat) : ScanHit :=
  { kmer := pyUpper (pySlice chrm ((i : Int) - args.kmer_length) i),
    pos := (i : Int) - args.kmer_length + 1,
    context := pyUpper (pySlice chrm
      ((i : Int) - args.kmer_length - args.context_window.1)
      ((i : Int) + args.context_window.2)) }

/-- Completeness of the forward scan loop: every occurrence at or after
the current index, at or before the window end, and at least `k` deep into
the sequence contributes its candidate, however many occurrences surround
it (the loop advances by one after each match). -/
theorem findKmersLoop_mem_fwd {args : Args} {pam chrm : List Char} {endIdx : Int}
    {i : Nat} (hpam : pam ≠ []) (hocc : occursAt chrm pam i = true)
    (hend : (i : Int) ≤ endIdx) (hk : args.kmer_length ≤ i) :
    ∀ {fuel idx : Nat}, idx ≤ i → chrm.length + 2 - idx ≤ fuel →
      fwdHitAt args chrm i ∈ findKmersLoop args pam chrm endIdx true fuel idx := by
  have hplen : 1 ≤ pam.length := by
    have : pam.length ≠ 0 := by simpa [List.length_eq_zero] using hpam
    omega
  have hilen : i ≤ chrm.length := by
    have := occursAt_add_le hocc hpam
    omega
  intro fuel
  induction fuel with
  | zero => intro idx h1 h2; omega
  | succ n ih =>
    intro idx h1 h2
    obtain ⟨j, hj, hjle⟩ := findFrom_of_occurs hocc hilen h1
    obtain ⟨hidxj, hjlen, hoccj, _⟩ := findFrom_some_facts hj
    have hjend : ¬ ((j : Int) > endIdx) := by
      have : (j : Int) ≤ (i : Int) := by exact_mod_cast hjle
      omega
    rw [findKmersLoop, hj]
    rcases Nat.eq_or_lt_of_le hjle with rfl | hlt
    · have hkj : (args.kmer_length : Int) ≤ (j : Int) := by exact_mod_cast hk
      simp only [if_neg hjend, if_true]
      split
      · next hneg => exfalso; omega
      · exact List.mem_cons_self _ _
    · have hmem := ih (show j + 1 ≤ i by omega) (by omega)
      simp only [if_neg hjend, if_true]
      split
      · exact hmem
      · exact List.mem_cons_of_mem _ hmem

/-- Completeness of `find_kmers` on the forward strand. -/
theorem find_kmers_mem_fwd {args : Args} {pam chrm : List Char} {endIdx : Int}
    {start i : Nat} (hpam : pam ≠ []) (hocc : occursAt chrm pam i = true)
    (hstart : start ≤ i) (hend : (i : Int) ≤ endIdx) (hk : args.kmer_length ≤ i) :
    fwdHitAt args chrm i ∈ find_kmers args pam chrm start endIdx true :=
  findKmersLoop_mem_fwd hpam hocc hend hk hstart (by omega)

/-! ### Lemmas about reverse complementation -/

/-- `NUC_MAP` only ever outputs A/C/T/G. -/
theorem NUC_MAP_sound {a b : Char} (h : NUC_MAP a = some b) :
    NUCS.contains b = true := by
  unfold NUC_MAP at h
  split at h <;> simp_all <;> subst h <;> decide

/-- `NUC_MAP` is defined on all of A/C/T/G. -/
theorem NUC_MAP_total {c : Char} (h : NUCS.contains c = true) :
    ∃ b, NUC_MAP c = some b := by
  have hc : c = 'A' ∨ c = 'C' ∨ c = 'T' ∨ c = 'G' := by
    simpa [NUCS] using h
  rcases hc with rfl | rfl | rfl | rfl <;> exact ⟨_, rfl⟩

/-- A successful `optionMap NUC_MAP` preserves length and lands in
A/C/T/G. -/
theorem optionMap_NUC_MAP_facts :
    ∀ {l m : List Char}, optionMap NUC_MAP l = some m →
      m.length = l.length ∧ ∀ c ∈ m, NUCS.contains c = true := by
  intro l
  induction l with
  | nil =>
    intro m h
    rw [optionMap] at h
    injection h with h
    subst h
    exact ⟨rfl, by simp⟩
  | cons a l ih =>
    intro m h
    rw [optionMap] at h
    cases ha : NUC_MAP a with
    | none => rw [ha] at h; exact absurd h (by simp)
    | some b =>
      cases hl : optionMap NUC_MAP l with
      | none => rw [ha, hl] at h; exact absurd h (by simp)
      | some bs =>
        rw [ha, hl] at h
        injection h with h
        subst h
        obtain ⟨h1, h2⟩ := ih hl
        refine ⟨by simp [h1], fun c hc => ?_⟩
        rcases List.mem_cons.mp hc with rfl | hc'
        · exact NUC_MAP_sound ha
        · exact h2 c hc'

/-- `revcom` preserves length. -/
theorem revcom_length {l m : List Char} (h : revcom l = some m) :
    m.length = l.length := by
  unfold revcom at h
  cases hl : optionMap NUC_MAP l with
  | none => rw [hl] at h; exact absurd h (by simp)
  | some bs =>
    rw [hl] at h
    simp only [Option.map_some', Option.some.injEq] at h
    subst h
    simpa using (optionMap_NUC_MAP_facts hl).1

/-- `revcom` output consists of A/C/T/G only. -/
theorem revcom_mem_NUCS {l m : List Char} (h : revcom l = some m) :
    m.all (fun c => NUCS.contains c) = true := by
  unfold revcom at h
  cases hl : optionMap NUC_MAP l with
  | none => rw [hl] at h; exact absurd h (by simp)
  | some bs =>
    rw [hl] at h
    simp only [Option.map_some', Option.some.injEq] at h
    subst h
    rw [List.all_eq_true]
    intro c hc
    exact (optionMap_NUC_MAP_facts hl).2 c (List.mem_reverse.mp hc)

/-- `revcom` succeeds on any all-A/C/T/G sequence. -/
theorem revcom_total {l : List Char}
    (h : l.all (fun c => NUCS.contains c) = true) : ∃ m, revcom l = some m := by
  rw [List.all_eq_true] at h
  unfold revcom
  suffices hs : ∃ bs, optionMap NUC_MAP l = some bs by
    obtain ⟨bs, hbs⟩ := hs
    exact ⟨bs.reverse, by rw [hbs]; rfl⟩
  induction l with
  | nil => exact ⟨[], rfl⟩
  | cons a l ih =>
    obtain ⟨b, hb⟩ := NUC_MAP_total (h a (by simp))
    obtain ⟨bs, hbs⟩ := ih (fun c hc => h c (List.mem_cons_of_mem _ hc))
    exact ⟨b :: bs, by rw [optionMap, hb, hbs]⟩

/-! ### Membership lemmas for the per-hit processing -/

/-- Where a record of the forward branch comes from: a scan hit passing
the length, alphabet and `include_kmer` gates, printed by
`output_bed_line` with sense "+". -/
theorem processHitsFwd_ok_mem {args : Args} {ctxLen : Nat} {name : String} :
    ∀ {hits : List ScanHit} {results : List BedLine} {r : BedLine},
      processHitsFwd args ctxLen name hits = .ok results → r ∈ results →
      ∃ h ∈ hits, h.kmer.length = args.kmer_length ∧ h.context.length = ctxLen ∧
        h.context.all (fun nuc => NUCS.contains nuc) = true ∧
        include_kmer args h.kmer = some true ∧
        r = output_bed_line args name
          { sequence := h.kmer, position := h.pos, pam := args.pam, sense := "+",
            length := args.kmer_length, context := h.context } := by
  intro hits
  induction hits with
  | nil =>
    intro results r hok hr
    rw [processHitsFwd] at hok
    injection hok with h
    subst h
    cases hr
  | cons h hs ih =>
    intro results r hok hr
    rw [processHitsFwd] at hok
    split at hok
    · obtain ⟨a, ha, rest⟩ := ih hok hr
      exact ⟨a, List.mem_cons_of_mem _ ha, rest⟩
    · split at hok
      · obtain ⟨a, ha, rest⟩ := ih hok hr
        exact ⟨a, List.mem_cons_of_mem _ ha, rest⟩
      · next hlen hnuc =>
        split at hok
        · exact absurd hok (by simp)
        · obtain ⟨a, ha, rest⟩ := ih hok hr
          exact ⟨a, List.mem_cons_of_mem _ ha, rest⟩
        · next hinc =>
          cases hrec : processHitsFwd args ctxLen name hs with
          | error e => rw [hrec] at hok; exact absurd hok (by simp [Except.map])
          | ok rest =>
            rw [hrec] at hok
            simp only [Except.map, Except.ok.injEq] at hok
            subst hok
            rcases List.mem_cons.mp hr with rfl | hr'
            · refine ⟨h, List.mem_cons_self _ _, ?_, ?_, ?_, hinc, rfl⟩
              · rcases not_or.mp hlen with ⟨h1, _⟩; simpa using h1
              · rcases not_or.mp hlen with ⟨_, h2⟩; simpa using h2
              · simpa using hnuc
            · obtain ⟨a, ha, rest'⟩ := ih hrec hr'
              exact ⟨a, List.mem_cons_of_mem _ ha, rest'⟩

/-- Where a record of the reverse branch comes from: a scan hit passing
the gates, reverse-complemented, and printed with sense "-". -/
theorem processHitsRev_ok_mem {args : Args} {ctxLen : Nat} {name : String} :
    ∀ {hits : List ScanHit} {results : List BedLine} {r : BedLine},
      processHitsRev args ctxLen name hits = .ok results → r ∈ results →
      ∃ h ∈ hits, h.kmer.length = args.kmer_length ∧ h.context.length = ctxLen ∧
        h.context.all (fun nuc => NUCS.contains nuc) = true ∧
        ∃ kmerRC contextRC, revcom h.kmer = some kmerRC ∧
          revcom h.context = some contextRC ∧
          include_kmer args kmerRC = some true ∧
          r = output_bed_line args name
            { sequence := kmerRC, position := h.pos, pam := args.pam, sense := "-",
              length := args.kmer_length, context := contextRC } := by
  intro hits
  induction hits with
  | nil =>
    intro results r hok hr
    rw [processHitsRev] at hok
    injection hok with h
    subst h
    cases hr
  | cons h hs ih =>
    intro results r hok hr
    rw [processHitsRev] at hok
    split at hok
    · obtain ⟨a, ha, rest⟩ := ih hok hr
      exact ⟨a, List.mem_cons_of_mem _ ha, rest⟩
    · split at hok
      · obtain ⟨a, ha, rest⟩ := ih hok hr
        exact ⟨a, List.mem_cons_of_mem _ ha, rest⟩
      · next hlen hnuc =>
        split at hok
        · exact absurd hok (by simp)
        · next kmerRC hkrc =>
          split at hok
          · exact absurd hok (by simp)
          · next contextRC hcrc =>
            split at hok
            · exact absurd hok (by simp)
            · obtain ⟨a, ha, rest⟩ := ih hok hr
              exact ⟨a, List.mem_cons_of_mem _ ha, rest⟩
            · next hinc =>
              cases hrec : processHitsRev args ctxLen name hs with
              | error e => rw [hrec] at hok; exact absurd hok (by simp [Except.map])
              | ok rest =>
                rw [hrec] at hok
                simp only [Except.map, Except.ok.injEq] at hok
                subst hok
                rcases List.mem_cons.mp hr with rfl | hr'
                · refine ⟨h, List.mem_cons_self _ _, ?_, ?_, ?_,
                    kmerRC, contextRC, hkrc, hcrc, hinc, rfl⟩
                  · rcases not_or.mp hlen with ⟨h1, _⟩; simpa using h1
                  · rcases not_or.mp hlen with ⟨_, h2⟩; simpa using h2
                  · simpa using hnuc
                · obtain ⟨a, ha, rest'⟩ := ih hrec hr'
                  exact ⟨a, List.mem_cons_of_mem _ ha, rest'⟩

/-- Where an element of a collected task sequence comes from. -/
theorem collectE_ok_mem {α β : Type} {f : α → Except String (List β)} :
    ∀ {xs : List α} {out : List β} {b : β},
      collectE f xs = .ok out → b ∈ out →
      ∃ x ∈ xs, ∃ l, f x = .ok l ∧ b ∈ l := by
  intro xs
  induction xs with
  | nil =>
    intro out b hok hb
    rw [collectE] at hok
    injection hok with h
    subst h
    cases hb
  | cons x xs ih =>
    intro out b hok hb
    rw [collectE] at hok
    cases hfx : f x with
    | error e => rw [hfx] at hok; exact absurd hok (by simp)
    | ok l =>
      rw [hfx] at hok
      cases hrest : collectE f xs with
      | error e => rw [hrest] at hok; exact absurd hok (by simp)
      | ok rest =>
        rw [hrest] at hok
        injection hok with h
        subst h
        rcases List.mem_append.mp hb with hbl | hbr
        · exact ⟨x, List.mem_cons_self _ _, l, hfx, hbl⟩
        · obtain ⟨y, hy, l', hl', hb'⟩ := ih hrest hbr
          exact ⟨y, List.mem_cons_of_mem _ hy, l', hl', hb'⟩

/-- The cleavage columns `output_bed_line` prints, by strand. -/
theorem output_bed_line_cleave (args : Args) (name : String) (k : KmerRec) :
    (output_bed_line args name k).cleaveStart =
      (if k.sense = "+" then k.position + k.length + args.active_site_offset_5 - 1
       else k.position - args.active_site_offset_3 + args.pam.length - 1) ∧
    (output_bed_line args name k).cleaveStop =
      (if k.sense = "+" then k.position + k.length + args.active_site_offset_3 - 1
       else k.position - args.active_site_offset_5 + args.pam.length - 1) :=
  ⟨rfl, rfl⟩

/-- The pass-through fields of `output_bed_line`. -/
theorem output_bed_line_fields (args : Args) (name : String) (k : KmerRec) :
    (output_bed_line args name k).sense = k.sense ∧
    (output_bed_line args name k).position = k.position ∧
    (output_bed_line args name k).sequence = k.sequence ∧
    (output_bed_line args name k).context = k.context :=
  ⟨rfl, rfl, rfl, rfl⟩

/-- Where a record of `process_pam` comes from: a k-mer and context of the
configured lengths over A/C/T/G, printed by `output_bed_line` with the
branch's strand. -/
theorem process_pam_ok_mem {args : Args} {pam record_seq : List Char}
    {record_id : String} {start : Nat} {endIdx : Int}
    {pset rpset : List (List Char)} {results : List BedLine} {r : BedLine}
    (hok : process_pam args pam record_seq record_id start endIdx pset rpset =
      .ok results) (hr : r ∈ results) :
    ∃ (sense : String) (kmer context : List Char) (pos : Int),
      kmer.length = args.kmer_length ∧
      context.length =
        args.kmer_length + args.context_window.1 + args.context_window.2 ∧
      context.all (fun nuc => NUCS.contains nuc) = true ∧
      (sense = "+" ∨ sense = "-") ∧
      r = output_bed_line args record_id
        { sequence := kmer, position := pos, pam := args.pam, sense := sense,
          length := args.kmer_length, context := context } := by
  unfold process_pam at hok
  split at hok
  · obtain ⟨h, _, hk, hc, hn, _, heq⟩ := processHitsFwd_ok_mem hok hr
    exact ⟨"+", h.kmer, h.context, h.pos, hk, hc, hn, Or.inl rfl, heq⟩
  · split at hok
    · obtain ⟨h, _, hk, hc, hn, kmerRC, contextRC, hkrc, hcrc, _, heq⟩ :=
        processHitsRev_ok_mem hok hr
      refine ⟨"-", kmerRC, contextRC, h.pos, ?_, ?_, ?_, Or.inr rfl, heq⟩
      · rw [revcom_length hkrc, hk]
      · rw [revcom_length hcrc, hc]
      · exact revcom_mem_NUCS hcrc
    · exact absurd hok (by simp)

/-- The region join only ever removes records. -/
theorem finalTargets_subset {tk td : Option (List Ival)} {name : String}
    {l : List BedLine} {r : BedLine} (h : r ∈ finalTargets tk td name l) :
    r ∈ l := by
  unfold finalTargets at h
  split at h
  · exact List.mem_of_mem_filter h
  · split at h
    · exact List.mem_of_mem_filter h
    · exact h

/-- A run that returns records passed the offset validation. -/
theorem mainRun_ok_offsets {args : Args} {kf df : List (List Ival)}
    {jo : String} {fasta : List FastaRec} {out : List BedLine}
    (hok : mainRun args kf df jo fasta = .ok out) :
    args.active_site_offset_5 < args.active_site_offset_3 := by
  unfold mainRun at hok
  split at hok
  · exact absurd hok (by simp)
  · next hge => omega

/-- Every record of a successful run was emitted by some `process_pam`
task. -/
theorem mainRun_ok_mem {args : Args} {kf df : List (List Ival)} {jo : String}
    {fasta : List FastaRec} {out : List BedLine} {r : BedLine}
    (hok : mainRun args kf df jo fasta = .ok out) (hr : r ∈ out) :
    ∃ (pam record_seq : List Char) (record_id : String) (start : Nat)
      (endIdx : Int) (pset rpset : List (List Char)) (results : List BedLine),
      process_pam args pam record_seq record_id start endIdx pset rpset =
        .ok results ∧ r ∈ results := by
  unfold mainRun at hok
  split at hok
  · exact absurd hok (by simp)
  · split at hok
    · exact absurd hok (by simp)
    · split at hok
      · exact absurd hok (by simp)
      · simp only [] at hok
        split at hok
        · exact absurd hok (by simp)
        · split at hok
          · exact absurd hok (by simp)
          · split at hok
            · exact absurd hok (by simp)
            · obtain ⟨record, _, l, hpr, hrl⟩ := collectE_ok_mem hok hr
              unfold processRecord at hpr
              split at hpr
              · injection hpr with hpr
                subst hpr
                cases hrl
              · split at hpr
                · injection hpr with hpr
                  subst hpr
                  cases hrl
                · split at hpr
                  · exact absurd hpr (by simp)
                  · next s0 e0 heq =>
                    cases hd : dispatchPams args record (scanStart s0)
                        (scanEnd e0 record.seq.length) _ _ with
                    | error e => rw [hd] at hpr; exact absurd hpr (by simp [Except.map])
                    | ok dl =>
                      rw [hd] at hpr
                      simp only [Except.map, Except.ok.injEq] at hpr
                      subst hpr
                      have hrdl := finalTargets_subset hrl
                      obtain ⟨pam, _, results, hpp, hrres⟩ :=
                        collectE_ok_mem hd hrdl
                      exact ⟨pam, record.seq, record.id, _, _, _, _, results,
                        hpp, hrres⟩

/-- With a complementable context, the restriction loop computes exactly
"some pattern occurs in the context or in its reverse complement". -/
theorem removeRestrictedLoop_eq {context rc : List Char}
    (hrc : revcom context = some rc) :
    ∀ patterns : List (List Char),
      removeRestrictedLoop context patterns =
        some (patterns.any (fun p => pyContains p context || pyContains p rc)) := by
  intro patterns
  induction patterns with
  | nil => rfl
  | cons p ps ih =>
    rw [removeRestrictedLoop, hrc]
    by_cases h1 : pyContains p context = true
    · simp [h1]
    · rw [Bool.not_eq_true] at h1
      by_cases h2 : pyContains p rc = true
      · simp [h1, h2]
      · rw [Bool.not_eq_true] at h2
        simp [h1, h2, ih]

/-- A slice of an upper-case sequence is already upper-case. -/
theorem pyUpper_pySlice_of_fixed {chrm : List Char} (h : pyUpper chrm = chrm)
    (a b : Int) : pyUpper (pySlice chrm a b) = pySlice chrm a b := by
  have hcomm : pyUpper (pySlice chrm a b) = pySlice (pyUpper chrm) a b := by
    simp [pySlice, pyUpper, List.map_take, List.map_drop, List.length_map]
  rw [hcomm, h]

/-- An overlap in the `ivOverlap` sense, unpacked. -/
theorem ivOverlap_true {x y : Ival} (h : ivOverlap x y = true) :
    x.chrom = y.chrom ∧ max x.start y.start < min x.stop y.stop := by
  simpa [ivOverlap] using h

/-! ### The claims -/

/-- C8 — Configuration fail-fast: whenever `offset5 ≥ offset3`, the run
stops with the configuration error before any FASTA record, region file or
scan is consulted (the conclusion holds for every fasta/keep/discard
input), and no records are produced. -/
theorem C8_config_fail_fast (args : Args) (kf df : List (List Ival))
    (jo : String) (fasta : List FastaRec)
    (h : args.active_site_offset_3 ≤ args.active_site_offset_5) :
    mainRun args kf df jo fasta =
      .error "--active_site_offset_5 should be less than --active_site_offset_3" := by
  unfold mainRun
  rw [if_pos (by omega)]

/-- C8 witness: offsets −3/−4 (violating offset5 < offset3) abort a
concrete run. -/
theorem C8_config_fail_fast_witness :
    mainRun { argsW with active_site_offset_5 := -3, active_site_offset_3 := -4 }
      [keepW] [] "intersect" [recW] =
      .error "--active_site_offset_5 should be less than --active_site_offset_3" :=
  C8_config_fail_fast _ [keepW] [] "intersect" [recW] (by decide)

/-- C2 — Cleavage-site coordinate derivation: every record `process_pam`
emits carries cleavage columns `(position + k + offset5 − 1,
position + k + offset3 − 1)` on the "+" strand and
`(position − offset3 + len(pam) − 1, position − offset5 + len(pam) − 1)`
on the "−" strand, `k` being the configured k-mer length and `pam` the
configured motif. -/
theorem C2_cleavage_coordinates {args : Args} {pam record_seq : List Char}
    {record_id : String} {start : Nat} {endIdx : Int}
    {pset rpset : List (List Char)} {results : List BedLine} {r : BedLine}
    (hok : process_pam args pam record_seq record_id start endIdx pset rpset =
      .ok results) (hr : r ∈ results) :
    (r.sense = "+" →
      r.cleaveStart = r.position + args.kmer_length + args.active_site_offset_5 - 1 ∧
      r.cleaveStop = r.position + args.kmer_length + args.active_site_offset_3 - 1) ∧
    (r.sense = "-" →
      r.cleaveStart = r.position - args.active_site_offset_3 + args.pam.length - 1 ∧
      r.cleaveStop = r.position - args.active_site_offset_5 + args.pam.length - 1) := by
  obtain ⟨sense, kmer, context, pos, _, _, _, hsense, heq⟩ :=
    process_pam_ok_mem hok hr
  subst heq
  rcases hsense with rfl | rfl
  · refine ⟨fun _ => ⟨?_, ?_⟩, fun habs => absurd habs (by simp [output_bed_line])⟩
    · simp [output_bed_line]
    · simp [output_bed_line]
  · refine ⟨fun habs => absurd habs (by simp [output_bed_line]), fun _ => ⟨?_, ?_⟩⟩
    · simp [output_bed_line]
    · simp [output_bed_line]

/-- C2 witness: a concrete `process_pam` run (pam "GG" on `recW`) whose
records satisfy both strand formulas. -/
theorem C2_cleavage_coordinates_witness :
    ∃ results,
      process_pam argsW (str "GG") recW.seq recW.id 0 14
        [str "GG"] [str "CC"] = .ok results ∧
      ∀ r ∈ results,
        (r.sense = "+" →
          r.cleaveStart = r.position + argsW.kmer_length + argsW.active_site_offset_5 - 1 ∧
          r.cleaveStop = r.position + argsW.kmer_length + argsW.active_site_offset_3 - 1) ∧
        (r.sense = "-" →
          r.cleaveStart = r.position - argsW.active_site_offset_3 + argsW.pam.length - 1 ∧
          r.cleaveStop = r.position - argsW.active_site_offset_5 + argsW.pam.length - 1) := by
  have hok : process_pam argsW (str "GG") recW.seq recW.id 0 14
      [str "GG"] [str "CC"] =
      .ok ((process_pam argsW (str "GG") recW.seq recW.id 0 14
        [str "GG"] [str "CC"]).toOption.getD []) := by decide
  exact ⟨_, hok, fun r hr => C2_cleavage_coordinates hok hr⟩

/-- C9 — Implicit well-formedness of emitted BED intervals: `mainRun`
validates `offset5 < offset3` before scanning, and every record of a
successful run then has cleavage start strictly below cleavage stop, on
both strands. -/
theorem C9_wellformed_bed_interval {args : Args} {kf df : List (List Ival)}
    {jo : String} {fasta : List FastaRec} {out : List BedLine} {r : BedLine}
    (hok : mainRun args kf df jo fasta = .ok out) (hr : r ∈ out) :
    r.cleaveStart < r.cleaveStop := by
  have hoff := mainRun_ok_offsets hok
  obtain ⟨pam, rs, rid, st, ei, ps, rps, results, hpp, hrr⟩ :=
    mainRun_ok_mem hok hr
  obtain ⟨sense, kmer, context, pos, _, _, _, hsense, heq⟩ :=
    process_pam_ok_mem hpp hrr
  subst heq
  rcases hsense with rfl | rfl
  · simp [output_bed_line]
    omega
  · simp [output_bed_line]
    omega

/-- C9 witness: the records of a concrete successful run (one "+" and one
"−" record) have well-formed cleavage intervals. -/
theorem C9_wellformed_bed_interval_witness :
    ∃ out, mainRun argsW [keepW] [] "intersect" [recW] = .ok out ∧
      out ≠ [] ∧ ∀ r ∈ out, r.cleaveStart < r.cleaveStop := by
  have hok : mainRun argsW [keepW] [] "intersect" [recW] =
      .ok ((mainRun argsW [keepW] [] "intersect" [recW]).toOption.getD []) := by
    decide
  exact ⟨_, hok, by decide, fun r hr => C9_wellformed_bed_interval hok hr⟩

/-- C7 — Emitted-record length invariant: every record of a successful
run has k-mer length exactly the configured `kmer_length`, context length
exactly `kmer_length + upstream + downstream`, and a context made of
A/C/T/G only (candidates failing these checks are dropped inside
`process_pam` and never emitted). -/
theorem C7_record_length_invariant {args : Args} {kf df : List (List Ival)}
    {jo : String} {fasta : List FastaRec} {out : List BedLine} {r : BedLine}
    (hok : mainRun args kf df jo fasta = .ok out) (hr : r ∈ out) :
    r.sequence.length = args.kmer_length ∧
    r.context.length =
      args.kmer_length + args.context_window.1 + args.context_window.2 ∧
    r.context.all (fun nuc => NUCS.contains nuc) = true := by
  obtain ⟨pam, rs, rid, st, ei, ps, rps, results, hpp, hrr⟩ :=
    mainRun_ok_mem hok hr
  obtain ⟨sense, kmer, context, pos, hk, hc, hn, _, heq⟩ :=
    process_pam_ok_mem hpp hrr
  subst heq
  exact ⟨hk, hc, hn⟩

/-- C7 witness: the records of a concrete successful run have the
configured k-mer and context lengths and A/C/T/G contexts. -/
theorem C7_record_length_invariant_witness :
    ∃ out, mainRun argsW [keepW] [] "intersect" [recW] = .ok out ∧
      out ≠ [] ∧ ∀ r ∈ out,
        r.sequence.length = argsW.kmer_length ∧
        r.context.length =
          argsW.kmer_length + argsW.context_window.1 + argsW.context_window.2 ∧
        r.context.all (fun nuc => NUCS.contains nuc) = true := by
  have hok : mainRun argsW [keepW] [] "intersect" [recW] =
      .ok ((mainRun argsW [keepW] [] "intersect" [recW]).toOption.getD []) := by
    decide
  exact ⟨_, hok, by decide, fun r hr => C7_record_length_invariant hok hr⟩

/-- C3 — What actually happens with zero keep-region files: for every
otherwise-valid configuration (offsets and GC range in order, at most one
discard file so the discard merge succeeds), `main` reaches
`get_chromosome_boundaries(None)` and aborts with an AttributeError
before any chromosome is scanned — the claimed warn-and-scan-everything
behaviour never runs. -/
theorem C3_zero_keep_files_abort (args : Args) (df : List (List Ival))
    (jo : String) (fasta : List FastaRec)
    (h5 : args.active_site_offset_5 < args.active_site_offset_3)
    (hgc : args.gc_range.1 < args.gc_range.2)
    (hdf : df = [] ∨ ∃ f, df = [f]) :
    mainRun args [] df jo fasta =
      .error "AttributeError: NoneType object has no attribute sort" := by
  unfold mainRun
  rw [if_neg (by omega), if_neg (by omega)]
  rcases hdf with rfl | ⟨f, rfl⟩
  · rfl
  · rfl

/-- C3 witness: a concrete run with no keep files aborts with the
AttributeError. -/
theorem C3_zero_keep_files_abort_witness :
    mainRun argsW [] [] "intersect" [recW] =
      .error "AttributeError: NoneType object has no attribute sort" :=
  C3_zero_keep_files_abort argsW [] "intersect" [recW] (by decide) (by decide)
    (Or.inl rfl)

/-- C5 — Keep-minus-discard region join: with both sets truthy, `main`
replaces the keep set by `keep.subtract(discard)` and clears the discard
set, so the discard set is never applied again downstream; on the
concrete example keep = chrA:[100,200), discard = chrA:[150,160) the
effective keep is the two intervals [100,150) and [160,200), and the
resulting join excludes a candidate whose cleavage interval sits at
chrA:155 while keeping one at chrA:120. -/
theorem C5_keep_minus_discard :
    (∀ k d : List Ival, k ≠ [] → d ≠ [] →
      combineTargets (some k) (some d) = (some (bedSubtract k d), none)) ∧
    combineTargets (some keepC5) (some discC5) =
      (some [{ chrom := "chrA", start := 100, stop := 150 },
             { chrom := "chrA", start := 160, stop := 200 }], none) ∧
    finalTargets (combineTargets (some keepC5) (some discC5)).1
        (combineTargets (some keepC5) (some discC5)).2 "chrA"
        [rec155, rec120] = [rec120] := by
  refine ⟨?_, by decide, by decide⟩
  intro k d hk hd
  unfold combineTargets
  rw [if_pos ⟨by simp [pyTruthy, hk], by simp [pyTruthy, hd]⟩]
  simp

/-- C4 counterexample — palindromic PAM strand tagging: for the
palindromic motif "GC" (whose single concrete variant equals its own
reverse complement), the per-chromosome dispatch runs the variant twice
and `process_pam` takes the *forward* branch both times, emitting two
identical "+"-sense records; the reverse-semantics branch at the same
input would emit a different "−"-sense record, which never appears. -/
theorem C4_palindromic_counterexample :
    dispatchPams argsGC recGC 0 6 [str "GC"] [str "GC"] =
      .ok [rGCfwd, rGCfwd] ∧
    rGCfwd.sense = "+" ∧
    processHitsRev argsGC
        (argsGC.kmer_length + argsGC.context_window.1 + argsGC.context_window.2)
        recGC.id (find_kmers argsGC (str "GC") (pyUpper recGC.seq) 0 6 false) =
      .ok [rGCrev] ∧
    rGCrev.sense = "-" ∧ rGCfwd ≠ rGCrev := by
  decide

/-- C4 (amended) — PAM variant strand tagging as the code implements it:
a concrete PAM in `pam_set` is always scanned with forward semantics, a
PAM is scanned with reverse semantics only when it is in `rev_pam_set`
but not in `pam_set`; hence a palindromic variant, dispatched once from
each set, is scanned twice with forward semantics and never with reverse
semantics (shown concretely for "GC"). -/
theorem C4_pam_strand_dispatch :
    (∀ (args : Args) (pam record_seq : List Char) (record_id : String)
        (start : Nat) (endIdx : Int) (pset rpset : List (List Char)),
      pam ∈ pset →
        process_pam args pam record_seq record_id start endIdx pset rpset =
          processHitsFwd args
            (args.kmer_length + args.context_window.1 + args.context_window.2)
            record_id (find_kmers args pam (pyUpper record_seq) start endIdx true)) ∧
    (∀ (args : Args) (pam record_seq : List Char) (record_id : String)
        (start : Nat) (endIdx : Int) (pset rpset : List (List Char)),
      pam ∉ pset → pam ∈ rpset →
        process_pam args pam record_seq record_id start endIdx pset rpset =
          processHitsRev args
            (args.kmer_length + args.context_window.1 + args.context_window.2)
            record_id (find_kmers args pam (pyUpper record_seq) start endIdx false)) ∧
    processHitsFwd argsGC 2 recGC.id
        (find_kmers argsGC (str "GC") (pyUpper recGC.seq) 0 6 true) =
      .ok [rGCfwd] ∧
    dispatchPams argsGC recGC 0 6 [str "GC"] [str "GC"] =
      .ok ([rGCfwd] ++ [rGCfwd]) := by
  refine ⟨?_, ?_, by decide, by decide⟩
  · intro args pam record_seq record_id start endIdx pset rpset hmem
    unfold process_pam
    rw [if_pos hmem]
  · intro args pam record_seq record_id start endIdx pset rpset hnot hmem
    unfold process_pam
    rw [if_neg hnot, if_pos hmem]

/-- C4 witness: the dispatch facts instantiated on the palindromic "GC"
scenario. -/
theorem C4_pam_strand_dispatch_witness :
    process_pam argsGC (str "GC") recGC.seq recGC.id 0 6
        [str "GC"] [str "GC"] =
      processHitsFwd argsGC 2 recGC.id
        (find_kmers argsGC (str "GC") (pyUpper recGC.seq) 0 6 true) :=
  C4_pam_strand_dispatch.1 argsGC (str "GC") recGC.seq recGC.id 0 6
    [str "GC"] [str "GC"] (by decide)

/-- C1 (amended) — Forward-strand scan contract: over an upper-case
sequence, every occurrence of the concrete PAM at an index `i` at or after
`start`, at or before `end`, *with `i ≥ k`* (occurrences closer to the
sequence start are silently skipped because their 0-based position is
negative) yields the candidate `(sequence[i−k:i], i−k+1,
sequence[i−k−upstream:i+downstream])`; the planted-AGG example gives
exactly one forward candidate across all NGG variants, at 1-based
position 11 with kmer `seq50[10:30]` and context `seq50[5:35]`; and
overlapping occurrences are all reported (three candidates for the three
overlapping "GG" sites of `seqOv`). -/
theorem C1_forward_scan_contract :
    (∀ (args : Args) (pam chrm : List Char) (start : Nat) (endIdx : Int)
        (i : Nat),
      pyUpper chrm = chrm → pam ≠ [] → occursAt chrm pam i = true →
      start ≤ i → (i : Int) ≤ endIdx → args.kmer_length ≤ i →
      ({ kmer := pySlice chrm ((i : Int) - args.kmer_length) i,
         pos := (i : Int) - args.kmer_length + 1,
         context := pySlice chrm
           ((i : Int) - args.kmer_length - args.context_window.1)
           ((i : Int) + args.context_window.2) } : ScanHit) ∈
        find_kmers args pam chrm start endIdx true) ∧
    (map_ambiguous_sequence (str "NGG")).flatMap
        (fun p => find_kmers argsC1 p seq50 0 50 true) =
      [{ kmer := pySlice seq50 10 30, pos := 11, context := pySlice seq50 5 35 }] ∧
    (find_kmers argsOv (str "GG") seqOv 0 24 true).map ScanHit.pos =
      [18, 19, 20] := by
  refine ⟨?_, by decide, by decide⟩
  intro args pam chrm start endIdx i hup hpam hocc hstart hend hk
  have h := find_kmers_mem_fwd hpam hocc hstart hend hk
  have e : fwdHitAt args chrm i =
      { kmer := pySlice chrm ((i : Int) - args.kmer_length) i,
        pos := (i : Int) - args.kmer_length + 1,
        context := pySlice chrm
          ((i : Int) - args.kmer_length - args.context_window.1)
          ((i : Int) + args.context_window.2) } := by
    unfold fwdHitAt
    rw [pyUpper_pySlice_of_fixed hup, pyUpper_pySlice_of_fixed hup]
  rwa [e] at h

/-- C1 counterexample — the claim as stated fails near the sequence
start: `seqNear` carries its only "AGG" at index 5, inside the scan
window `[0, 50]`, yet the scan with k = 20 yields no candidate at all
(the computed 0-based position 5 − 20 is negative and the occurrence is
skipped), where the claim promises a candidate for *each* occurrence. -/
theorem C1_near_start_occurrence_dropped :
    occursAt seqNear (str "AGG") 5 = true ∧ ((5 : Int) ≤ 50) ∧
    find_kmers argsC1 (str "AGG") seqNear 0 50 true = [] := by
  decide

/-- C1 witness: the planted-AGG occurrence at index 30 of `seq50`
instantiates the general contract. -/
theorem C1_forward_scan_contract_witness :
    ({ kmer := pySlice seq50 10 30, pos := 11,
       context := pySlice seq50 5 35 } : ScanHit) ∈
      find_kmers argsC1 (str "AGG") seq50 0 50 true := by
  have h := C1_forward_scan_contract.1 argsC1 (str "AGG") seq50 0 50 30
    (by decide) (by decide) (by decide) (by decide) (by decide) (by decide)
  simpa [argsC1] using h

/-- C6 — KmerFilter as a pure predicate: over a nonempty k-mer whose
vector-flanked context is all A/C/T/G (so Python's `revcom` cannot raise),
`include_kmer` never raises and accepts exactly when (1) the GC percentage
lies in the inclusive configured range, (2) poly-T discarding, when on,
finds no "TTTT" substring, and (3) when restriction patterns are
configured, no pattern occurs in `flank5 + kmer + flank3` nor in its
reverse complement. -/
theorem C6_kmer_filter_predicate (args : Args) (sequence : List Char)
    (_hne : sequence ≠ [])
    (hnuc : (args.flank_5 ++ sequence ++ args.flank_3).all
      (fun c => NUCS.contains c) = true) :
    ∃ rc, revcom (args.flank_5 ++ sequence ++ args.flank_3) = some rc ∧
      include_kmer args sequence ≠ none ∧
      (include_kmer args sequence = some true ↔
        ((args.gc_range.1 : ℚ) ≤ calculate_gc_content sequence ∧
          calculate_gc_content sequence ≤ (args.gc_range.2 : ℚ)) ∧
        (args.discard_poly_T = true →
          pyContains ['T', 'T', 'T', 'T'] sequence = false) ∧
        (args.restriction_patterns ≠ [] →
          ∀ p ∈ args.restriction_patterns,
            pyContains p (args.flank_5 ++ sequence ++ args.flank_3) = false ∧
            pyContains p rc = false)) := by
  obtain ⟨rc, hrc⟩ := revcom_total hnuc
  have hrr : remove_restricted sequence args.restriction_patterns
      args.flank_5 args.flank_3 =
      some (args.restriction_patterns.any (fun p =>
        pyContains p (args.flank_5 ++ sequence ++ args.flank_3) ||
        pyContains p rc)) :=
    removeRestrictedLoop_eq hrc args.restriction_patterns
  refine ⟨rc, hrc, ?_, ?_⟩ <;> unfold include_kmer <;> simp only []
  · by_cases hgc : (calculate_gc_content sequence < (args.gc_range.1 : ℚ) ∨
        calculate_gc_content sequence > (args.gc_range.2 : ℚ))
    · rw [if_pos hgc]; simp
    · rw [if_neg hgc]
      by_cases hpt : (args.discard_poly_T &&
          pyContains ['T', 'T', 'T', 'T'] sequence) = true
      · rw [if_pos hpt]; simp
      · rw [if_neg hpt]
        by_cases hrp : 0 < args.restriction_patterns.length
        · rw [if_pos hrp, hrr]
          cases args.restriction_patterns.any (fun p =>
              pyContains p (args.flank_5 ++ sequence ++ args.flank_3) ||
              pyContains p rc) <;> simp
        · rw [if_neg hrp]; simp
  · by_cases hgc : (calculate_gc_content sequence < (args.gc_range.1 : ℚ) ∨
        calculate_gc_content sequence > (args.gc_range.2 : ℚ))
    · rw [if_pos hgc]
      constructor
      · intro habs; exact absurd habs (by simp)
      · rintro ⟨⟨h1, h2⟩, -, -⟩
        rcases hgc with h | h
        · exact absurd h (not_lt.mpr h1)
        · exact absurd h (not_lt.mpr h2)
    · rw [if_neg hgc]
      push_neg at hgc
      obtain ⟨hg1, hg2⟩ := hgc
      by_cases hpt : (args.discard_poly_T &&
          pyContains ['T', 'T', 'T', 'T'] sequence) = true
      · rw [if_pos hpt]
        obtain ⟨hd, hc⟩ := Bool.and_eq_true_iff.mp hpt
        constructor
        · intro habs; exact absurd habs (by simp)
        · rintro ⟨-, h2, -⟩
          rw [h2 hd] at hc
          cases hc
      · rw [if_neg hpt]
        have hpt' : args.discard_poly_T = true →
            pyContains ['T', 'T', 'T', 'T'] sequence = false := by
          intro hd
          cases hct : pyContains ['T', 'T', 'T', 'T'] sequence with
          | false => rfl
          | true => exact absurd (by rw [hd, hct]; rfl) hpt
        by_cases hrp : 0 < args.restriction_patterns.length
        · rw [if_pos hrp, hrr]
          have hrpne : args.restriction_patterns ≠ [] := by
            intro habs; rw [habs] at hrp; exact absurd hrp (by simp)
          by_cases hany : args.restriction_patterns.any (fun p =>
              pyContains p (args.flank_5 ++ sequence ++ args.flank_3) ||
              pyContains p rc) = true
          · rw [hany]
            constructor
            · intro habs; exact absurd habs (by simp)
            · rintro ⟨-, -, h3⟩
              obtain ⟨p, hp, hor⟩ := List.any_eq_true.mp hany
              obtain ⟨e1, e2⟩ := h3 hrpne p hp
              rw [e1, e2] at hor
              cases hor
          · rw [Bool.not_eq_true] at hany
            rw [hany]
            constructor
            · intro _
              refine ⟨⟨hg1, hg2⟩, hpt', fun _ p hp => ?_⟩
              have hpf : ¬ (pyContains p (args.flank_5 ++ sequence ++ args.flank_3) ||
                  pyContains p rc) = true := by
                intro habs
                have hT : (args.restriction_patterns.any fun q =>
                    pyContains q (args.flank_5 ++ sequence ++ args.flank_3) ||
                    pyContains q rc) = true :=
                  List.any_eq_true.mpr ⟨p, hp, habs⟩
                rw [hany] at hT
                cases hT
              constructor
              · cases h : pyContains p (args.flank_5 ++ sequence ++ args.flank_3) with
                | false => rfl
                | true => exact absurd (by rw [h]; rfl) hpf
              · cases h : pyContains p rc with
                | false => rfl
                | true => exact absurd (by rw [h]; simp) hpf
            · intro _; rfl
        · rw [if_neg hrp]
          have hrpe : args.restriction_patterns = [] :=
            List.length_eq_zero.mp (by omega)
          constructor
          · intro _
            exact ⟨⟨hg1, hg2⟩, hpt', fun habs => absurd hrpe habs⟩
          · intro _; rfl

/-- C6 witness: on a concrete configuration with all three checks active
and a 50%-GC k-mer, the filter's acceptance matches the predicate. -/
theorem C6_kmer_filter_predicate_witness :
    ∃ rc, revcom (argsC6.flank_5 ++ str "GGGGCCCCAAAATATA" ++ argsC6.flank_3) =
        some rc ∧
      include_kmer argsC6 (str "GGGGCCCCAAAATATA") ≠ none ∧
      (include_kmer argsC6 (str "GGGGCCCCAAAATATA") = some true ↔
        ((argsC6.gc_range.1 : ℚ) ≤ calculate_gc_content (str "GGGGCCCCAAAATATA") ∧
          calculate_gc_content (str "GGGGCCCCAAAATATA") ≤ (argsC6.gc_range.2 : ℚ)) ∧
        (argsC6.discard_poly_T = true →
          pyContains ['T', 'T', 'T', 'T'] (str "GGGGCCCCAAAATATA") = false) ∧
        (argsC6.restriction_patterns ≠ [] →
          ∀ p ∈ argsC6.restriction_patterns,
            pyContains p (argsC6.flank_5 ++ str "GGGGCCCCAAAATATA" ++
              argsC6.flank_3) = false ∧
            pyContains p rc = false)) :=
  C6_kmer_filter_predicate argsC6 (str "GGGGCCCCAAAATATA") (by decide) (by decide)

/-- `cleaveIval` on the "+" strand, evaluated. -/
theorem cleaveIval_plus (args : Args) (name : String) (position : Int) :
    cleaveIval args name "+" position =
      { chrom := name,
        start := position + args.kmer_length + args.active_site_offset_5 - 1,
        stop := position + args.kmer_length + args.active_site_offset_3 - 1 } :=
  rfl

/-- `cleaveIval` on the "−" strand, evaluated. -/
theorem cleaveIval_minus (args : Args) (name : String) (position : Int) :
    cleaveIval args name "-" position =
      { chrom := name,
        start := position - args.active_site_offset_3 + args.pam.length - 1,
        stop := position - args.active_site_offset_5 + args.pam.length - 1 } :=
  rfl

/-- With the default offsets −4/−3 and the 3-base NGG motif, a PAM
occurrence whose cleavage interval overlaps the chromosome's keep
boundaries `[a, b)` always lies inside the padded scan window — for
*every* k-mer length and context window, since the cleavage site sits
within 4 bases (forward) or `len(pam) + 4` bases (reverse) of the PAM
index while the pad is 20. -/
theorem noMissDefaultOffsets (args : Args) (name : String) (chrm : List Char)
    (a b : Int) (i : Nat) (p : List Char)
    (h5 : args.active_site_offset_5 = -4) (h3 : args.active_site_offset_3 = -3)
    (hpam : args.pam = str "NGG")
    (hcase :
      (p ∈ map_ambiguous_sequence args.pam ∧
        ivOverlap (cleaveIval args name "+" ((i : Int) - args.kmer_length + 1))
          { chrom := name, start := a, stop := b } = true) ∨
      ((∃ q ∈ map_ambiguous_sequence args.pam, revcom q = some p) ∧
        ivOverlap (cleaveIval args name "-" ((i : Int) + 1))
          { chrom := name, start := a, stop := b } = true))
    (hocc : occursAt chrm p i = true) :
    scanStart a ≤ i ∧ (i : Int) ≤ scanEnd b chrm.length := by
  have hps : map_ambiguous_sequence (str "NGG") =
      [str "AGG", str "CGG", str "GGG", str "TGG"] := by decide
  rcases hcase with ⟨hp, hov⟩ | ⟨⟨q, hq, hrq⟩, hov⟩
  · rw [hpam, hps] at hp
    have hplen : p.length = 3 := by
      simp only [List.mem_cons, List.not_mem_nil, or_false] at hp
      rcases hp with rfl | rfl | rfl | rfl <;> decide
    have hpne : p ≠ [] := by
      intro h
      rw [h] at hplen
      cases hplen
    have hil : i + 3 ≤ chrm.length := by
      have := occursAt_add_le hocc hpne
      omega
    rw [cleaveIval_plus, h5, h3] at hov
    obtain ⟨-, hmm⟩ := ivOverlap_true hov
    have hxb : (i : Int) - args.kmer_length + 1 + args.kmer_length + (-4) - 1 < b :=
      lt_of_le_of_lt (le_max_left _ _) (lt_of_lt_of_le hmm (min_le_right _ _))
    have hay : a < (i : Int) - args.kmer_length + 1 + args.kmer_length + (-3) - 1 :=
      lt_of_le_of_lt (le_max_right _ _) (lt_of_lt_of_le hmm (min_le_left _ _))
    constructor
    · rw [scanStart, Int.toNat_le]
      exact max_le (by omega) (by omega)
    · rw [scanEnd]
      exact le_min (by omega) (by omega)
  · rw [hpam, hps] at hq
    have hqlen : q.length = 3 := by
      simp only [List.mem_cons, List.not_mem_nil, or_false] at hq
      rcases hq with rfl | rfl | rfl | rfl <;> decide
    have hplen : p.length = 3 := by
      rw [revcom_length hrq, hqlen]
    have hpne : p ≠ [] := by
      intro h
      rw [h] at hplen
      cases hplen
    have hil : i + 3 ≤ chrm.length := by
      have := occursAt_add_le hocc hpne
      omega
    have hL : (args.pam.length : Int) = 3 := by rw [hpam]; rfl
    rw [cleaveIval_minus, h5, h3] at hov
    obtain ⟨-, hmm⟩ := ivOverlap_true hov
    have hxb : (i : Int) + 1 - (-3) + args.pam.length - 1 < b :=
      lt_of_le_of_lt (le_max_left _ _) (lt_of_lt_of_le hmm (min_le_right _ _))
    have hay : a < (i : Int) + 1 - (-4) + args.pam.length - 1 :=
      lt_of_le_of_lt (le_max_right _ _) (lt_of_lt_of_le hmm (min_le_left _ _))
    constructor
    · rw [scanStart, Int.toNat_le]
      exact max_le (by omega) (by omega)
    · rw [scanEnd]
      exact le_min (by omega) (by omega)

set_option maxRecDepth 20000 in
/-- C10 (amended) — the scan window really is
`[max(0, min_start − 20), min(len, max_end + 20)]` with a fixed pad of 20
(`get_chromosome_boundaries` supplying the per-chromosome min start / max
end), but whether a PAM whose cleavage site lies inside the kept
boundaries can fall outside that window is governed by the active-site
offsets and PAM length, not by `k + flanks`: with default offsets −4/−3
and NGG no such PAM exists for any k-mer length or context window, while
offsets −30/−25 (beyond the pad) do push such a PAM (index 227, cleavage
interval (197,202) overlapping keep [100,200)) past the window, where the
scan no longer reports it. -/
theorem C10_scan_window_pad :
    (∀ s0 e0 : Int, ∀ len : Nat,
      ((scanStart s0 : Int) = max (s0 - 20) 0) ∧
      scanEnd e0 len = min (e0 + 20) (len : Int)) ∧
    get_chromosome_boundaries
        (some [{ chrom := "chrA", start := 100, stop := 150 },
               { chrom := "chrA", start := 30, stop := 90 }]) =
      .ok [("chrA", 30, 150)] ∧
    (∀ (args : Args) (name : String) (chrm : List Char) (a b : Int) (i : Nat)
        (p : List Char),
      args.active_site_offset_5 = -4 → args.active_site_offset_3 = -3 →
      args.pam = str "NGG" →
      ((p ∈ map_ambiguous_sequence args.pam ∧
        ivOverlap (cleaveIval args name "+" ((i : Int) - args.kmer_length + 1))
          { chrom := name, start := a, stop := b } = true) ∨
       ((∃ q ∈ map_ambiguous_sequence args.pam, revcom q = some p) ∧
        ivOverlap (cleaveIval args name "-" ((i : Int) + 1))
          { chrom := name, start := a, stop := b } = true)) →
      occursAt chrm p i = true →
      scanStart a ≤ i ∧ (i : Int) ≤ scanEnd b chrm.length) ∧
    (occursAt seq250 (str "AGG") 227 = true ∧
      ivOverlap (cleaveIval argsBig "chrA" "+"
          ((227 : Int) - argsBig.kmer_length + 1))
        { chrom := "chrA", start := 100, stop := 200 } = true ∧
      find_kmers argsBig (str "AGG") seq250 (scanStart 100)
        (scanEnd 200 seq250.length) true = []) := by
  refine ⟨?_, by decide, ?_, ?_⟩
  · intro s0 e0 len
    exact ⟨Int.toNat_of_nonneg (le_max_right _ _), rfl⟩
  · intro args name chrm a b i p h5 h3 hpam hcase hocc
    exact noMissDefaultOffsets args name chrm a b i p h5 h3 hpam hcase hocc
  · exact ⟨by decide, by decide, by decide⟩

/-- C10 counterexample — at the concrete configuration with
`k + flanks = 25 + 5 + 5 = 35 > 20` but default offsets −4/−3 and NGG,
*no* sequence, keep boundaries and PAM occurrence exist whose cleavage
interval overlaps the kept boundaries while the occurrence index falls
outside the padded scan window — refuting "for every configuration with
k + flanks exceeding 20 a PAM whose cleavage site lies inside a kept
region can fall outside the scanned window". -/
theorem C10_pad_claim_counterexample :
    ¬ ∃ (chrm : List Char) (a b : Int) (i : Nat) (p : List Char),
        ((p ∈ map_ambiguous_sequence argsC10.pam ∧
          ivOverlap (cleaveIval argsC10 "chr" "+"
              ((i : Int) - argsC10.kmer_length + 1))
            { chrom := "chr", start := a, stop := b } = true) ∨
         ((∃ q ∈ map_ambiguous_sequence argsC10.pam, revcom q = some p) ∧
          ivOverlap (cleaveIval argsC10 "chr" "-" ((i : Int) + 1))
            { chrom := "chr", start := a, stop := b } = true)) ∧
        occursAt chrm p i = true ∧
        (i < scanStart a ∨ scanEnd b chrm.length < (i : Int)) := by
  rintro ⟨chrm, a, b, i, p, hcase, hocc, hout⟩
  obtain ⟨h1, h2⟩ :=
    noMissDefaultOffsets argsC10 "chr" chrm a b i p rfl rfl rfl hcase hocc
  rcases hout with h | h
  · omega
  · omega

end Crispomics
